import Mathlib

/-!
Shallow embedding of the fsglue object-document mapping layer
(`src/fsglue/property.py` and `src/fsglue/model.py`).

Python values travelling through the mapping layer are modelled by the
inductive `Value`; the external document store (Firestore) is modelled as an
association list from document identifiers to raw field dictionaries; the
external collaborators (the `json` module, the `jsonschema` library and the
store client itself) are modelled coarsely, as the specification scopes them
out as opaque collaborators.
-/

namespace Fsglue

/-- A Python value as it travels through the fsglue conversion pipeline.
`none` is Python `None`; `dt` is a `datetime` carrying its UTC epoch
timestamp as a rational; `sentinel` is `PropertySpecialValue.SET_NOTHING`
(`property.py` line 11); numbers are split into `int` and `float`
(floats modelled as rationals). -/
inductive Value where
  | none
  | str (s : String)
  | int (n : Int)
  | float (q : Rat)
  | bool (b : Bool)
  | dt (t : Rat)
  | list (xs : List Value)
  | dict (kvs : List (String × Value))
  | sentinel

mutual

/-- Structural equality on `Value` (models Python `==` on the values fsglue
handles; cross-type numeric equality such as `1 == 1.0` is not exercised
by the embedded code paths). -/
def Value.beq : Value → Value → Bool
  | .none, .none => true
  | .str a, .str b => a == b
  | .int a, .int b => a == b
  | .float a, .float b => a == b
  | .bool a, .bool b => a == b
  | .dt a, .dt b => a == b
  | .list xs, .list ys => Value.beqList xs ys
  | .dict xs, .dict ys => Value.beqDict xs ys
  | .sentinel, .sentinel => true
  | _, _ => false

/-- Pointwise `Value.beq` on lists. -/
def Value.beqList : List Value → List Value → Bool
  | [], [] => true
  | a :: as, b :: bs => Value.beq a b && Value.beqList as bs
  | _, _ => false

/-- Pointwise `Value.beq` on string-keyed association lists. -/
def Value.beqDict : List (String × Value) → List (String × Value) → Bool
  | [], [] => true
  | (k, a) :: as, (l, b) :: bs => k == l && Value.beq a b && Value.beqDict as bs
  | _, _ => false

end

/-- Induction principle for the nested inductive `Value`. -/
theorem Value.indOn (P : Value → Prop)
    (hnone : P .none) (hstr : ∀ s, P (.str s)) (hint : ∀ n, P (.int n))
    (hfloat : ∀ q, P (.float q)) (hbool : ∀ b, P (.bool b)) (hdt : ∀ t, P (.dt t))
    (hlist : ∀ xs, (∀ v ∈ xs, P v) → P (.list xs))
    (hdict : ∀ kvs, (∀ p ∈ kvs, P p.2) → P (.dict kvs))
    (hsent : P .sentinel) : ∀ v, P v := fun v =>
  match v with
  | .none => hnone
  | .str s => hstr s
  | .int n => hint n
  | .float q => hfloat q
  | .bool b => hbool b
  | .dt t => hdt t
  | .sentinel => hsent
  | .list xs => hlist xs (fun v hv =>
      have : sizeOf v < 1 + sizeOf xs := by
        have := List.sizeOf_lt_of_mem hv; omega
      Value.indOn P hnone hstr hint hfloat hbool hdt hlist hdict hsent v)
  | .dict kvs => hdict kvs (fun p hp =>
      have : sizeOf p.2 < 1 + sizeOf kvs := by
        have h1 := List.sizeOf_lt_of_mem hp
        obtain ⟨k, w⟩ := p
        simp at h1 ⊢; omega
      Value.indOn P hnone hstr hint hfloat hbool hdt hlist hdict hsent p.2)
termination_by v => sizeOf v

/-- Reflection: `Value.beq` decides propositional equality. -/
theorem Value.beq_eq : ∀ (a b : Value), Value.beq a b = true ↔ a = b := by
  intro a
  induction a using Value.indOn with
  | hnone => intro b; cases b <;> simp [Value.beq]
  | hstr s => intro b; cases b <;> simp [Value.beq]
  | hint n => intro b; cases b <;> simp [Value.beq]
  | hfloat q => intro b; cases b <;> simp [Value.beq]
  | hbool b' => intro b; cases b <;> simp [Value.beq]
  | hdt t => intro b; cases b <;> simp [Value.beq]
  | hsent => intro b; cases b <;> simp [Value.beq]
  | hlist xs ih =>
    intro b; cases b <;> simp [Value.beq]
    case list ys =>
      induction xs generalizing ys with
      | nil => cases ys <;> simp [Value.beqList]
      | cons a as iha =>
        cases ys with
        | nil => simp [Value.beqList]
        | cons c cs =>
          simp [Value.beqList, ih a (by simp)]
          intro _
          exact iha (fun v hv => ih v (by simp [hv])) cs
  | hdict kvs ih =>
    intro b; cases b <;> simp [Value.beq]
    case dict ys =>
      induction kvs generalizing ys with
      | nil => cases ys <;> simp [Value.beqDict]
      | cons a as iha =>
        cases ys with
        | nil => simp [Value.beqDict]
        | cons c cs =>
          obtain ⟨k, v⟩ := a; obtain ⟨l, w⟩ := c
          simp [Value.beqDict, ih ⟨k, v⟩ (by simp)]
          intro _ _
          exact iha (fun p hp => ih p (by simp [hp])) cs

instance : DecidableEq Value := fun a b =>
  decidable_of_iff (Value.beq a b = true) (Value.beq_eq a b)

/-- Python truthiness (`bool(v)` / `if v:`) for the modelled values. -/
def truthyV : Value → Bool
  | .none => false
  | .str s => decide (s ≠ "")
  | .int n => decide (n ≠ 0)
  | .float q => decide (q ≠ 0)
  | .bool b => b
  | .dt _ => true
  | .list xs => decide (xs ≠ [])
  | .dict kvs => decide (kvs ≠ [])
  | .sentinel => true

/-- Lookup in a Python dict modelled as an association list (first binding
wins; fsglue dicts never hold duplicate keys). -/
def dget {α : Type} (l : List (String × α)) (k : String) : Option α :=
  match l with
  | [] => Option.none
  | (k', v) :: rest => if k' = k then some v else dget rest k

/-- Assignment `d[k] = v` on a Python dict: replace the existing binding in place, or
append a new binding at the end (Python dicts keep insertion order). -/
def dset {α : Type} (l : List (String × α)) (k : String) (v : α) : List (String × α) :=
  match l with
  | [] => [(k, v)]
  | (k', v') :: rest => if k' = k then (k', v) :: rest else (k', v') :: dset rest k v

/-- Lookup `d.get(k)` on a Python dict holding `Value`s: `None` when the key is
absent (a missing key and a stored `None` collapse, as in Python). -/
def pyGet (l : List (String × Value)) (k : String) : Value :=
  (dget l k).getD .none

/-- Key membership test `k in d` for a Python dict. -/
def dmem {α : Type} (l : List (String × α)) (k : String) : Bool :=
  (dget l k).isSome


/-- Error taxonomy of `src/fsglue/exceptions.py`: `validation` is
`FsglueValidationError`, `document_not_found` is `FsglueDocumentNotFound`,
`programming` is `FsglueProgrammingError`.  `external_error` stands for
exceptions raised by Python or the store client outside the fsglue taxonomy
(for example a `TypeError`, or Firestore's not-found error on `update`);
those paths are never exercised by the theorems below. -/
inductive Err where
  | validation (msg : String)
  | document_not_found
  | programming (msg : String)
  | external_error (msg : String)
deriving DecidableEq

instance {ε α : Type} [DecidableEq ε] [DecidableEq α] : DecidableEq (Except ε α) := fun a b =>
  match a, b with
  | .ok x, .ok y => decidable_of_iff (x = y) (by constructor <;> (intro h; cases h; rfl))
  | .error x, .error y => decidable_of_iff (x = y) (by constructor <;> (intro h; cases h; rfl))
  | .ok _, .error _ => isFalse (by intro h; cases h)
  | .error _, .ok _ => isFalse (by intro h; cases h)

mutual

/-- Serializer modelling the external `json.dumps` (Python standard library,
out of scope per the spec): string escaping and float formatting are
simplified; no theorem below depends on the produced text. -/
def jsonDumps : Value → String
  | .none => "null"
  | .str s => "\"" ++ s ++ "\""
  | .int n => toString n
  | .float q => toString q
  | .bool b => cond b "true" "false"
  | .dt t => "\"datetime:" ++ toString t ++ "\""
  | .list xs => "[" ++ jsonDumpsList xs ++ "]"
  | .dict kvs => "\x7b" ++ jsonDumpsDict kvs ++ "\x7d"
  | .sentinel => "null"

/-- Comma-separated serialization of a list body. -/
def jsonDumpsList : List Value → String
  | [] => ""
  | [x] => jsonDumps x
  | x :: xs => jsonDumps x ++ ", " ++ jsonDumpsList xs

/-- Comma-separated serialization of an object body. -/
def jsonDumpsDict : List (String × Value) → String
  | [] => ""
  | [(k, v)] => "\"" ++ k ++ "\": " ++ jsonDumps v
  | (k, v) :: kvs => "\"" ++ k ++ "\": " ++ jsonDumps v ++ ", " ++ jsonDumpsDict kvs

end

/-- Parser modelling the external `json.loads` (Python standard library, out
of scope per the spec).  Only scalar payloads are decoded; composite decoding
is not modelled because no embedded code path or theorem below evaluates it
(`JsonProperty` with `store_as_string=True` is exercised only through
`to_db_value`, which calls `jsonDumps`). -/
def jsonLoads (s : String) : Value :=
  if s = "null" then .none
  else if s = "true" then .bool true
  else if s = "false" then .bool false
  else match s.toInt? with
  | some n => .int n
  | _ =>
    if s.startsWith "\"" ∧ s.endsWith "\"" ∧ s.length ≥ 2 then .str ((s.drop 1).dropRight 1)
    else .none

/-- String rendering modelling the Python builtin `str` on the values that
reach it in fsglue (error-message formatting and the string coercions);
the rendering of composites, datetimes and floats is approximated. -/
def pyStrOf : Value → String
  | .str s => s
  | .int n => toString n
  | .float q => toString q
  | .bool b => cond b "True" "False"
  | .none => "None"
  | .dt t => "datetime:" ++ toString t
  | .sentinel => "PropertySpecialValue.SET_NOTHING"
  | v => jsonDumps v

/-- Coercion modelling the Python builtin `str` as used by the conversion
hooks of `StringProperty`. -/
def pyStr (v : Value) : Value := .str (pyStrOf v)

/-- Coercion modelling the Python builtin `int`: identity on ints,
truncation toward zero on floats, 0/1 on bools, decimal parse on strings.
A `ValueError`/`TypeError` raised by Python on unparseable input is
modelled coarsely as `None`; no theorem below exercises those inputs. -/
def pyInt : Value → Value
  | .int n => .int n
  | .float q => .int (q.num.tdiv q.den)
  | .bool b => .int (cond b 1 0)
  | .str s =>
    match s.toInt? with
    | some n => .int n
    | _ => .none
  | _ => .none

/-- Coercion modelling the Python builtin `float` (fractional string
literals are not modelled; failure is modelled coarsely as `None`). -/
def pyFloat : Value → Value
  | .int n => .float n
  | .float q => .float q
  | .bool b => .float (cond b 1 0)
  | .str s =>
    match s.toInt? with
    | some n => .float n
    | _ => .none
  | _ => .none

/-- Coercion modelling the Python builtin `bool`, i.e. truthiness. -/
def pyBool (v : Value) : Value := .bool (truthyV v)

/-- Conversion modelling `datetime.utcfromtimestamp(value)` for a numeric
epoch value (`TypeError` on non-numbers is not modelled). -/
def utcfromtimestamp : Value → Value
  | .int n => .dt n
  | .float q => .dt q
  | _ => .none

/-- Conversion modelling `value.timestamp()` on a UTC datetime read back
from the store (the process is assumed to run in UTC, so
`utcfromtimestamp` and `timestamp` are mutually inverse). -/
def dtTimestamp : Value → Value
  | .dt t => .float t
  | _ => .none

/-- A model instance (`BaseModel.__init__`, model.py lines 69-74): the
optional document identifier `_doc_id`, the positional parent identifiers,
and the `_doc_values` mapping, which also holds the intact shadow entries
under keys prefixed with `___` (`BaseProperty._INTACT_PREFIX`). -/
structure Instance where
  doc_id : Option String
  parent_ids : List String
  doc_values : List (String × Value)
deriving DecidableEq

/-- Key of the intact shadow entry for a property
(`_INTACT_PREFIX + name`, property.py line 51). -/
def intactKey (name : String) : String := "___" ++ name

/-- The concrete property kinds of `src/fsglue/property.py`.
`computed` carries its `computer` callable; `constant` carries its fixed
value.  (`ComputedProperty`/`ConstantProperty` raise a programming error at
construction when the callable/value is missing, so the carried data is
total here.) -/
inductive Kind where
  | string
  | integer
  | float
  | boolean
  | timestamp (auto_now : Bool) (auto_now_add : Bool)
  | json (store_as_string : Bool)
  | computed (computer : Instance → Value)
  | constant (value : Value)

/-- Dispatch of `to_app_value` over the concrete property kinds. -/
def Kind.to_app_value : Kind → Value → Instance → Value
  | .string, v, _ => if v = .none then .none else pyStr v
  | .integer, v, _ => if v = .none then .none else pyInt v
  | .float, v, _ => if v = .none then .none else pyFloat v
  | .boolean, v, _ => if v = .none then .none else pyBool v
  | .timestamp _ _, v, _ => v
  | .json _, v, _ => v
  | .computed f, _, obj => f obj
  | .constant c, _, _ => c

/-- Dispatch of `from_app_value` over the concrete property kinds.  The
`obj` argument of the Python signature is unused by every concrete kind and
is omitted. -/
def Kind.from_app_value : Kind → Value → Value
  | .string, v => if v = .none then .none else pyStr v
  | .integer, v => if v = .none then .none else pyInt v
  | .float, v => if v = .none then .none else pyFloat v
  | .boolean, v => if v = .none then .none else pyBool v
  | .timestamp an ana, v => if an ∨ ana then .sentinel else v
  | .json _, v => v
  | .computed _, _ => .sentinel
  | .constant _, _ => .sentinel

/-- Dispatch of `to_db_value` over the concrete property kinds.  `now` is
the current UTC epoch time, standing for the `datetime.utcnow()` calls of
`TimestampProperty.to_db_value` (property.py lines 312-321); `obj` is
`None` exactly where the Python code passes `None`
(`BaseProperty.to_db_search_value`), and in that case the `computed` branch
is unreachable because `ComputedProperty` overrides `to_db_search_value`. -/
def Kind.to_db_value : Kind → Value → Option Instance → Rat → Value
  | .string, v, _, _ => if v = .none then .none else pyStr v
  | .integer, v, _, _ => if v = .none then .none else pyInt v
  | .float, v, _, _ => if v = .none then .none else pyFloat v
  | .boolean, v, _, _ => if v = .none then .none else pyBool v
  | .timestamp an ana, v, _, now =>
    if an then .dt now
    else if ana ∧ v = .none then .dt now
    else if v ≠ .none then utcfromtimestamp v
    else .none
  | .json sas, v, _, _ => if sas then .str (jsonDumps v) else v
  | .computed f, _, obj, _ =>
    match obj with
    | some o => f o
    | _ => .none
  | .constant c, _, _, _ => c

/-- Dispatch of `from_db_value` over the concrete property kinds. -/
def Kind.from_db_value : Kind → Value → Value
  | .string, v => if v = .none then .none else pyStr v
  | .integer, v => if v = .none then .none else pyInt v
  | .float, v => if v = .none then .none else pyFloat v
  | .boolean, v => if v = .none then .none else pyBool v
  | .timestamp _ _, v => if v = .none then v else dtTimestamp v
  | .json sas, v =>
    if v = .none then v
    else if sas then
      match v with
      | .str s => jsonLoads s
      | _ => .none
    else v
  | .computed _, _ => .sentinel
  | .constant _, _ => .sentinel

/-- Dispatch of `to_db_search_value`: `TimestampProperty`,
`ComputedProperty` and `ConstantProperty` override it (property.py lines
329-332, 476-477, 510-511); every other kind inherits the `BaseProperty`
default `to_db_value(from_app_value(value, None), None)` (lines 171-173),
which ignores the clock, so the default branch fixes `now` at 0. -/
def Kind.to_db_search_value (k : Kind) (v : Value) : Value :=
  match k with
  | .timestamp _ _ => if v = .none then v else utcfromtimestamp (pyInt v)
  | .computed _ => v
  | .constant _ => v
  | k' => k'.to_db_value (k'.from_app_value v) Option.none 0

/-- A property descriptor (`BaseProperty.__init__`, property.py lines
53-78) together with its fixed name (`_fix_up`) and concrete kind.  The
`schema` field models the *compiled* jsonschema fragment as a checker
returning the violation message, `Option.none` standing both for an absent
schema and for a falsy (empty) one; `validator` models the custom validator
callable, which per the error taxonomy (spec section 7) signals invalidity
by raising a validation error, modelled as returning its message. -/
structure PropSpec where
  name : String
  required : Bool
  default : Value
  choices : Option (List Value)
  schema : Option (Value → Option String)
  validator : Option (Value → Instance → Option String)
  is_virtual : Bool
  kind : Kind

/-- A model class: the resolved property map (`_fix_up_properties`), the
`DICT_ID_KEY` and `ID_VALIDATION_PATTERN` class attributes (the pattern is
modelled as its compiled matcher, `Option.none` standing for a falsy
pattern), and the overridable `validate` and `before_put` hooks. -/
structure ModelClass where
  props : List PropSpec
  dict_id_key : String
  id_pattern : Option (String → Bool)
  instance_validate : Instance → Except Err Unit
  before_put : Instance → Bool

/-- Lookup `cls._properties.get(field)`. -/
def ModelClass.propGet (M : ModelClass) (name : String) : Option PropSpec :=
  M.props.find? (fun p => p.name = name)

/-- Raw field dictionary of a stored document. -/
abbrev DbDict := List (String × Value)

/-- The modelled document store: one collection, an association list from
document identifier to raw field dictionary (the collection path and the
parent hierarchy are fixed by the surrounding scenario). -/
abbrev Store := List (String × DbDict)

/-- Store-client calls issued by the model layer: `add`/`set`/`update` are
the Firestore writes of `put` (model.py lines 358-367) and `after_put`
records the invocation of the after-hook. -/
inductive Event where
  | add (doc_id : String) (d : DbDict)
  | set (doc_id : String) (d : DbDict)
  | update (doc_id : String) (d : DbDict)
  | after_put (created : Bool)
deriving DecidableEq

/-- Result of a state-changing model operation: the returned (or raised)
value, the store after the operation, and the trace of store-client calls. -/
structure Outcome where
  res : Except Err Instance
  store : Store
  events : List Event
deriving DecidableEq

/-- Truthiness of the `only` argument (`if only:` / `... or only`):
`None` and the empty list are both falsy. -/
def truthyOnly : Option (List String) → Bool
  | some (_ :: _) => true
  | _ => false

/-- Truthiness of `self._doc_id` (`if self._doc_id:`): absent or empty
identifiers are falsy. -/
def truthyId : Option String → Bool
  | some s => decide (s ≠ "")
  | _ => false

/-- Truthiness of `values.get(key)` (`if doc_id:` / `if not doc_id:`). -/
def truthyOptV : Option Value → Bool
  | some v => truthyV v
  | _ => false

/-- Embeds `BaseProperty._get_app_value` (property.py lines 92-102):
look the internal (or intact) value up, substitute the default when the
value is `None` and a default is configured, then apply `to_app_value`. -/
def get_app_value (p : PropSpec) (obj : Instance) (get_intact : Bool) : Value :=
  let v := if get_intact then pyGet obj.doc_values (intactKey p.name) else pyGet obj.doc_values p.name
  let v := if v = .none ∧ p.default ≠ .none then p.default else v
  p.kind.to_app_value v obj

/-- First check of `BaseProperty._validate`: a configured choice list not
containing the value. -/
def choicesFail (p : PropSpec) (v : Value) : Bool :=
  match p.choices with
  | some cs => decide (v ∉ cs)
  | _ => false

/-- Fourth check of `BaseProperty._validate`: run the custom validator if
one is configured (it signals invalidity by raising). -/
def runValidator (p : PropSpec) (v : Value) (obj : Instance) : Except Err Unit :=
  match p.validator with
  | some f =>
    match f v obj with
    | some msg => .error (.validation msg)
    | _ => .ok ()
  | _ => .ok ()

/-- Embeds `BaseProperty._validate` (property.py lines 184-196): choices
membership, required-not-null, jsonschema (only on non-null values, the
schema violation re-raised as a validation error with the underlying
message), then the custom validator; the first failure propagates. -/
def prop_validate (p : PropSpec) (v : Value) (obj : Instance) : Except Err Unit :=
  if choicesFail p v then .error (.validation (pyStrOf v ++ " not found in choices"))
  else if p.required ∧ v = .none then .error (.validation (p.name ++ " is required"))
  else
    match p.schema with
    | some check =>
      if v ≠ .none then
        match check v with
        | some msg => .error (.validation msg)
        | _ => runValidator p v obj
      else runValidator p v obj
    | _ => runValidator p v obj

/-- Embeds `BaseProperty._set_app_value` (property.py lines 115-120):
validate the raw application value, convert with `from_app_value`, and
silently discard the write when the conversion yields the sentinel. -/
def set_app_value (p : PropSpec) (obj : Instance) (v : Value) : Except Err Instance :=
  match prop_validate p v obj with
  | .error e => .error e
  | .ok _ =>
    let v' := p.kind.from_app_value v
    if v' = .sentinel then .ok obj
    else .ok { obj with doc_values := dset obj.doc_values p.name v' }

/-- Embeds `BaseProperty._set_db_value` (property.py lines 149-158):
convert with `from_db_value`; unless the result is the sentinel, store it
as the internal value and capture the intact shadow.  In this pure value
model the `copy.deepcopy` on composites is the identity; the aliasing
content of that copy is modelled separately by `HeapInstance` below. -/
def set_db_value (p : PropSpec) (obj : Instance) (v : Value) : Instance :=
  let v' := p.kind.from_db_value v
  if v' = .sentinel then obj
  else { obj with doc_values := dset (dset obj.doc_values p.name v') (intactKey p.name) v' }

/-- Embeds `BaseProperty._get_db_value` (property.py lines 133-136). -/
def get_db_value (p : PropSpec) (obj : Instance) (now : Rat) : Value :=
  p.kind.to_db_value (pyGet obj.doc_values p.name) (some obj) now

/-- Field loop of `BaseModel._to_db_dict` (model.py lines 107-119): skip
names outside a truthy `only`, names in `exclude`, and virtual properties;
serialize the rest with `_get_db_value` in declaration order. -/
def to_db_fields (props : List PropSpec) (obj : Instance) (exclude : List String)
    (only : Option (List String)) (now : Rat) : DbDict :=
  match props with
  | [] => []
  | p :: rest =>
    if truthyOnly only ∧ p.name ∉ only.getD [] then to_db_fields rest obj exclude only now
    else if p.name ∈ exclude then to_db_fields rest obj exclude only now
    else if p.is_virtual then to_db_fields rest obj exclude only now
    else (p.name, get_db_value p obj now) :: to_db_fields rest obj exclude only now

/-- Embeds `BaseModel._to_db_dict`. -/
def to_db_dict (M : ModelClass) (obj : Instance) (exclude : List String)
    (only : Option (List String)) (now : Rat) : DbDict :=
  to_db_fields M.props obj exclude only now

/-- Embeds `BaseModel._from_db_dict` (model.py lines 131-138): hydrate
every declared non-virtual property present in the raw document. -/
def from_db_fields : List PropSpec → Instance → DbDict → Instance
  | [], obj, _ => obj
  | p :: rest, obj, d =>
    if p.is_virtual then from_db_fields rest obj d
    else if dmem d p.name then from_db_fields rest (set_db_value p obj (pyGet d p.name)) d
    else from_db_fields rest obj d

/-- Embeds `BaseModel._from_dict` (model.py lines 121-129): apply
`_set_app_value` for every declared property present in the input dict;
the first validation failure propagates. -/
def from_dict_fields : List PropSpec → Instance → List (String × Value) → Except Err Instance
  | [], obj, _ => .ok obj
  | p :: rest, obj, vals =>
    if dmem vals p.name then
      match set_app_value p obj (pyGet vals p.name) with
      | .error e => .error e
      | .ok obj' => from_dict_fields rest obj' vals
    else from_dict_fields rest obj vals

/-- Embeds `BaseModel._validate` (model.py lines 267-275): validate every
property against its current application-facing value.  (No shipped
property defines `_get_validate_value`, so that branch is not modelled.) -/
def validate_props : List PropSpec → Instance → Except Err Unit
  | [], _ => .ok ()
  | p :: rest, obj =>
    match prop_validate p (get_app_value p obj false) obj with
    | .error e => .error e
    | .ok _ => validate_props rest obj

/-- Firestore's `DocumentReference.update` merge of the written top-level
fields into the existing document (dotted field paths are not used by
fsglue and are not modelled). -/
def doc_merge (old d : DbDict) : DbDict :=
  d.foldl (fun acc kv => dset acc kv.1 kv.2) old

/-- Embeds `BaseModel.put` (model.py lines 342-368).  `now` stands for the
wall clock during the write and `new_id` for the store-assigned identifier
`coll_ref.add` would mint.  A Firestore `update` on a missing document
raises the client's not-found error, modelled as `external_error`. -/
def put (M : ModelClass) (obj : Instance) (store : Store) (exclude : List String)
    (only : Option (List String)) (now : Rat) (new_id : String) : Outcome :=
  match validate_props M.props obj with
  | .error e => ⟨.error e, store, []⟩
  | .ok _ =>
  match M.instance_validate obj with
  | .error e => ⟨.error e, store, []⟩
  | .ok _ =>
  if M.before_put obj then
    let d := to_db_dict M obj exclude only now
    if truthyId obj.doc_id then
      let id := obj.doc_id.getD ""
      if exclude.length > 0 ∨ truthyOnly only then
        match dget store id with
        | some old => ⟨.ok obj, dset store id (doc_merge old d), [.update id d, .after_put false]⟩
        | _ => ⟨.error (.external_error "google.api_core.exceptions.NotFound"), store, [.update id d]⟩
      else ⟨.ok obj, dset store id d, [.set id d, .after_put false]⟩
    else ⟨.ok { obj with doc_id := some new_id }, store ++ [(new_id, d)], [.add new_id d, .after_put true]⟩
  else ⟨.ok obj, store, []⟩

/-- Embeds `BaseModel.get_by_id` (model.py lines 299-319): fetch the raw
document; on existence hydrate a fresh instance, otherwise return `None`. -/
def get_by_id (M : ModelClass) (doc_id : String) (parent_ids : List String)
    (store : Store) : Option Instance :=
  match dget store doc_id with
  | some d => some (from_db_fields M.props ⟨some doc_id, parent_ids, []⟩ d)
  | _ => Option.none

/-- Deny-list branch of `BaseModel._filter_values`. -/
def filter_ex : List (String × Value) → List String → List (String × Value)
  | [], _ => []
  | (k, v) :: rest, exclude =>
    if k ∈ exclude then filter_ex rest exclude else (k, v) :: filter_ex rest exclude

/-- Embeds `BaseModel._filter_values` (model.py lines 246-256): with a
truthy `only`, rebuild the dict from the listed keys (missing keys become
`None`); otherwise drop the keys listed in `exclude`. -/
def filter_values (values : List (String × Value)) (exclude : List String)
    (only : Option (List String)) : List (String × Value) :=
  if truthyOnly only then (only.getD []).foldl (fun acc k => dset acc k (pyGet values k)) []
  else filter_ex values exclude

/-- Matcher of the default `ID_VALIDATION_PATTERN` regex
`^[a-zA-Z0-9_]+$` under Python `re.match` semantics: the match is anchored
at the start, `+` requires a nonempty run of word characters, and `$` also
matches just before a single trailing newline. -/
def default_id_pattern (s : String) : Bool :=
  let cs := s.data
  let body := if cs.getLast? = some '\n' then cs.dropLast else cs
  decide (body ≠ []) && body.all (fun c => c.isAlphanum || c = '_')

/-- Embeds `BaseModel._validate_doc_id` (model.py lines 181-185) for a
truthy configured pattern (`id_pattern = Option.none` models the falsy
pattern, for which the caller skips the check).  `re.match` on a
non-string raises a `TypeError`, modelled as `external_error`. -/
def validate_doc_id (M : ModelClass) (v : Value) : Except Err Unit :=
  match M.id_pattern with
  | some pat =>
    match v with
    | .str s => if pat s then .ok () else .error (.validation ("invalid id: " ++ s))
    | _ => .error (.external_error "TypeError: expected string or bytes-like object")
  | _ => .ok ()

/-- Conversion of the raw `values.get(DICT_ID_KEY)` into the `_doc_id`
slot (document identifiers are strings; other values never reach the
store in the scenarios modelled). -/
def doc_id_from_value : Option Value → Option String
  | some (.str s) => some s
  | _ => Option.none

/-- Embeds `BaseModel.create_by_dict` (model.py lines 152-179): validate a
truthy identifier against the pattern, filter the input, populate a fresh
instance, then `put()` with default arguments - or only validate when
`without_put` is set. -/
def create_by_dict (M : ModelClass) (values : List (String × Value))
    (parent_ids : List String) (store : Store) (exclude : List String)
    (only : Option (List String)) (without_put : Bool) (now : Rat)
    (new_id : String) : Outcome :=
  let doc_id := dget values M.dict_id_key
  match (if truthyOptV doc_id then validate_doc_id M (doc_id.getD .none) else .ok ()) with
  | .error e => ⟨.error e, store, []⟩
  | .ok _ =>
  let doc_values := filter_values values exclude only
  match from_dict_fields M.props ⟨doc_id_from_value doc_id, parent_ids, []⟩ doc_values with
  | .error e => ⟨.error e, store, []⟩
  | .ok obj =>
  if without_put then
    match validate_props M.props obj with
    | .error e => ⟨.error e, store, []⟩
    | .ok _ =>
      match M.instance_validate obj with
      | .error e => ⟨.error e, store, []⟩
      | .ok _ => ⟨.ok obj, store, []⟩
  else put M obj store [] Option.none now new_id

/-- Embeds `BaseModel.update_by_dict` (model.py lines 187-216): a falsy
identifier raises a validation error; a missing target document raises
`DocumentNotFound`; otherwise the fetched instance is updated from the
filtered dict and `put(exclude=..., only=...)` (or only validated when
`without_put` is set). -/
def update_by_dict (M : ModelClass) (values : List (String × Value))
    (parent_ids : List String) (store : Store) (exclude : List String)
    (only : Option (List String)) (without_put : Bool) (now : Rat)
    (new_id : String) : Outcome :=
  let doc_id := dget values M.dict_id_key
  if ¬ truthyOptV doc_id then ⟨.error (.validation (M.dict_id_key ++ " not found")), store, []⟩
  else
    let new_values := filter_values values exclude only
    match doc_id with
    | some (.str s) =>
      match get_by_id M s parent_ids store with
      | some obj =>
        match from_dict_fields M.props obj new_values with
        | .error e => ⟨.error e, store, []⟩
        | .ok obj =>
          if without_put then
            match validate_props M.props obj with
            | .error e => ⟨.error e, store, []⟩
            | .ok _ =>
              match M.instance_validate obj with
              | .error e => ⟨.error e, store, []⟩
              | .ok _ => ⟨.ok obj, store, []⟩
          else put M obj store exclude only now new_id
      | _ => ⟨.error .document_not_found, store, []⟩
    | _ => ⟨.error (.external_error "TypeError: document id must be a string"), store, []⟩

/-- Predicate-transformation loop shared verbatim by `BaseModel.where`
(model.py lines 464-468) and `BaseModel.stream` (lines 522-526): each
`[field, operator, value]` condition keeps its value unless the field names
a declared property, in which case the value is passed through that
property's `to_db_search_value` before reaching the store's filter
mechanism.  The query object built from the store client is external. -/
def to_search_conds (M : ModelClass) (conds : List (String × String × Value)) :
    List (String × String × Value) :=
  conds.map (fun c =>
    match M.propGet c.1 with
    | some p => (c.1, c.2.1, p.kind.to_db_search_value c.2.2)
    | _ => c)



/-- A value slot in the heap-aware model of `_doc_values`: immutable
primitives are held directly, mutable composites (dicts and lists) by
reference into a heap. -/
inductive HVal where
  | prim (v : Value)
  | ref (a : Nat)
deriving DecidableEq

/-- Heap lookup. -/
def heapGet (h : List (Nat × Value)) (a : Nat) : Option Value :=
  match h with
  | [] => Option.none
  | (b, v) :: rest => if b = a then some v else heapGet rest a

/-- Heap update of an existing cell. -/
def heapSet (h : List (Nat × Value)) (a : Nat) (w : Value) : List (Nat × Value) :=
  match h with
  | [] => []
  | (b, v) :: rest => if b = a then (b, w) :: rest else (b, v) :: heapSet rest a w

/-- Test for the composite (mutable) values that
`BaseProperty._set_db_value` deep-copies: `isinstance(value, dict) or
isinstance(value, list)`. -/
def isComposite : Value → Bool
  | .dict _ => true
  | .list _ => true
  | _ => false

/-- Heap-aware model of an instance's `_doc_values`, used to state the
aliasing content of the `copy.deepcopy` in `_set_db_value`: `heap` maps
references to composite payloads.  Sharing below the top level is not
tracked - `deepcopy` copies recursively, so one level of indirection is
enough to state that the shadow does not alias the value the application
can reach. -/
structure HeapInstance where
  vals : List (String × HVal)
  heap : List (Nat × Value)
  next_ref : Nat
deriving DecidableEq

/-- Heap-aware embedding of `BaseProperty._set_db_value` (property.py lines
149-158) for a property whose `from_db_value` is `from_db`: the converted
value object becomes the current internal value; for a composite,
`copy.deepcopy` allocates a fresh, distinct cell whose reference becomes
the intact shadow. -/
def hset_db_value (obj : HeapInstance) (name : String) (v : Value)
    (from_db : Value → Value) : HeapInstance :=
  let v' := from_db v
  if v' = .sentinel then obj
  else if isComposite v' then
    { vals := dset (dset obj.vals name (.ref obj.next_ref)) (intactKey name) (.ref (obj.next_ref + 1)),
      heap := (obj.next_ref, v') :: (obj.next_ref + 1, v') :: obj.heap,
      next_ref := obj.next_ref + 2 }
  else
    { obj with vals := dset (dset obj.vals name (.prim v')) (intactKey name) (.prim v') }

/-- In-place mutation of the composite held in heap cell `a` (the
application mutating a dict or list obtained through the property). -/
def hmutate (obj : HeapInstance) (a : Nat) (w : Value) : HeapInstance :=
  { obj with heap := heapSet obj.heap a w }

/-- Dereference a slot of the heap-aware instance. -/
def hderef (obj : HeapInstance) (hv : HVal) : Option Value :=
  match hv with
  | .prim v => some v
  | .ref a => heapGet obj.heap a

/-- A stored document with its descendant documents: the child list is the
concatenation, over the document's subcollections, of each subcollection's
documents, exactly the order walked by the nested loops of
`BaseModel._delete_doc_recursive` (model.py lines 427-432). -/
inductive FsTree where
  | node (doc_id : String) (children : List FsTree)

mutual

/-- Deletion trace of `_delete_doc_recursive(doc)`: recursively delete
every document of every subcollection, then delete `doc` itself. -/
def deleteEvents : FsTree → List String
  | .node i cs => deleteEventsList cs ++ [i]

/-- Deletion trace of the nested loops over `doc.collections()` and
`collection.list_documents()`. -/
def deleteEventsList : List FsTree → List String
  | [] => []
  | t :: ts => deleteEvents t ++ deleteEventsList ts

end

mutual

/-- All document identifiers of a document tree, root first. -/
def allIds : FsTree → List String
  | .node i cs => i :: allIdsList cs

/-- All document identifiers of a list of document trees. -/
def allIdsList : List FsTree → List String
  | [] => []
  | t :: ts => allIds t ++ allIdsList ts

end

/-- Identifier of the root document. -/
def FsTree.root_id : FsTree → String
  | .node i _ => i

/-- Child documents of the root. -/
def FsTree.child_docs : FsTree → List FsTree
  | .node _ cs => cs

/-- Identifiers of the strict descendants of the root. -/
def descendantIds (t : FsTree) : List String := allIdsList t.child_docs

/-- Reflexive-transitive subdocument relation on document trees. -/
inductive Subtree : FsTree → FsTree → Prop where
  | refl (t : FsTree) : Subtree t t
  | step {s u : FsTree} {i : String} {cs : List FsTree} :
      u ∈ cs → Subtree s u → Subtree s (.node i cs)

/-- Embeds `BaseModel.delete_all` (model.py lines 416-425): when the
`is_deletable` and `before_delete` checks pass, run the recursive deletion
rooted at the instance's document; on veto, delete nothing. -/
def delete_all (is_deletable before_delete : Bool) (t : FsTree) : List String :=
  if is_deletable && before_delete then deleteEvents t else []



theorem dget_dset_self {α : Type} (l : List (String × α)) (k : String) (v : α) :
    dget (dset l k v) k = some v := by
  induction l with
  | nil => simp [dget, dset]
  | cons kv rest ih =>
    obtain ⟨k', v'⟩ := kv
    by_cases h : k' = k <;> simp [dget, dset, h, ih]

theorem dget_dset_ne {α : Type} (l : List (String × α)) (k k' : String) (v : α)
    (h : k ≠ k') : dget (dset l k v) k' = dget l k' := by
  induction l with
  | nil => simp [dget, dset, h]
  | cons kv rest ih =>
    obtain ⟨k'', v''⟩ := kv
    by_cases h2 : k'' = k
    · subst h2; simp [dget, dset, h]
    · simp [dget, dset, h2, ih]

theorem intactKey_ne (name : String) : intactKey name ≠ name := by
  intro h
  have hlen := congrArg String.length h
  rw [intactKey, String.length_append] at hlen
  have h3 : "___".length = 3 := rfl
  omega

/-- Merging a dict into another never touches keys absent from the merged
dict (the merge semantics of a partial Firestore `update`). -/
theorem doc_merge_untouched (old d : DbDict) (k : String) (hk : dmem d k = false) :
    dget (doc_merge old d) k = dget old k := by
  induction d generalizing old with
  | nil => simp [doc_merge]
  | cons kv rest ih =>
    obtain ⟨k', v'⟩ := kv
    simp [dmem, dget] at hk
    by_cases h : k' = k
    · simp [h] at hk
    · have hrest : dmem rest k = false := by
        simp [dmem]
        simp [h] at hk
        exact hk
      have : doc_merge old ((k', v') :: rest) = doc_merge (dset old k' v') rest := by
        simp [doc_merge]
      rw [this, ih (dset old k' v') hrest, dget_dset_ne _ _ _ _ h]

/-- The field dictionary built by `_to_db_dict` mentions only names inside a
truthy `only` list and never names from `exclude`. -/
theorem to_db_fields_key_mem (props : List PropSpec) (obj : Instance)
    (exclude : List String) (only : Option (List String)) (now : Rat)
    (k : String) (v : Value) (hkv : (k, v) ∈ to_db_fields props obj exclude only now) :
    (truthyOnly only = true → k ∈ only.getD []) ∧ k ∉ exclude := by
  induction props with
  | nil => simp [to_db_fields] at hkv
  | cons p rest ih =>
    by_cases h1 : truthyOnly only = true ∧ p.name ∉ only.getD []
    · rw [to_db_fields, if_pos h1] at hkv
      exact ih hkv
    · rw [to_db_fields, if_neg h1] at hkv
      by_cases h2 : p.name ∈ exclude
      · rw [if_pos h2] at hkv
        exact ih hkv
      · rw [if_neg h2] at hkv
        by_cases h3 : p.is_virtual
        · rw [if_pos h3] at hkv
          exact ih hkv
        · rw [if_neg h3] at hkv
          rcases List.mem_cons.mp hkv with heq | hmem
          · obtain ⟨hk, _⟩ := Prod.mk.injEq .. ▸ heq
            cases heq
            refine ⟨fun ht => ?_, h2⟩
            by_contra hnot
            exact h1 ⟨ht, hnot⟩
          · exact ih hmem

/-- Trivial hook `validate` of a model class that does not override it. -/
def okValidate : Instance → Except Err Unit := fun _ => .ok ()

/-- A property spec with no constraints (required=False, no default, no
choices, no schema, no validator, not virtual). -/
def plainProp (name : String) (k : Kind) : PropSpec :=
  ⟨name, false, .none, Option.none, Option.none, Option.none, false, k⟩

/-- The `name` property of the repository's `Fruit` docstring example. -/
def nameProp : PropSpec :=
  ⟨"name", true, .none, Option.none, Option.none, Option.none, false, .string⟩

/-- The `price` property of the repository's `Fruit` docstring example. -/
def priceProp : PropSpec :=
  ⟨"price", true, .none, Option.none, Option.none, Option.none, false, .integer⟩

/-- The `Fruit` model of the repository's docstring example. -/
def FruitM : ModelClass :=
  ⟨[nameProp, priceProp], "id", some default_id_pattern, okValidate, fun _ => true⟩

/-- A model with one unconstrained string property, used in concrete runs. -/
def OneM : ModelClass :=
  ⟨[plainProp "name" .string], "id", some default_id_pattern, okValidate, fun _ => true⟩

/-- The timestamp model of `tests/property/test_timestamp_property.py`:
`created_at` with `auto_now_add=True` and `updated_at` with `auto_now=True`. -/
def TsM : ModelClass :=
  ⟨[plainProp "created_at" (.timestamp false true), plainProp "updated_at" (.timestamp true false)],
    "id", some default_id_pattern, okValidate, fun _ => true⟩

/-- The json-property spec used in the composite shadow scenarios. -/
def jProp : PropSpec := plainProp "j" (.json false)

/-- A model with one `JsonProperty`. -/
def JsonM : ModelClass := ⟨[jProp], "id", some default_id_pattern, okValidate, fun _ => true⟩

/-- C2: for every property and every written value, `_validate` runs its
four checks in the fixed order choices-membership, required-not-null,
JSON-schema (consulted only on non-null values, the violation message
carried into the raised validation error), then the custom validator; the
first failing check determines the outcome, later checks never run, and no
errors are aggregated - with all earlier checks passing the outcome is
exactly the custom validator's. -/
theorem prop_validate_check_order (p : PropSpec) (v : Value) (obj : Instance) :
    (choicesFail p v = true →
      prop_validate p v obj = .error (.validation (pyStrOf v ++ " not found in choices")))
  ∧ (choicesFail p v = false → p.required = true → v = .none →
      prop_validate p v obj = .error (.validation (p.name ++ " is required")))
  ∧ (choicesFail p v = false → ¬(p.required = true ∧ v = .none) →
      ∀ check, p.schema = some check →
      (∀ msg, v ≠ .none → check v = some msg →
        prop_validate p v obj = .error (.validation msg))
      ∧ (v = .none → prop_validate p v obj = runValidator p v obj))
  ∧ (choicesFail p v = false → ¬(p.required = true ∧ v = .none) →
      (∀ check, p.schema = some check → v ≠ .none → check v = Option.none) →
      prop_validate p v obj = runValidator p v obj) := by
  refine ⟨fun h1 => ?_, fun h1 h2 h3 => ?_, fun h1 h2 check hc => ⟨fun msg hv hm => ?_, fun hv => ?_⟩, fun h1 h2 h3 => ?_⟩
  · simp [prop_validate, h1]
  · subst h3; simp [prop_validate, h1, h2]
  · simp [prop_validate, h1, h2, hc, hv, hm]
  · subst hv
    have hr : p.required = false := by
      by_cases hr : p.required = true
      · exact absurd ⟨hr, rfl⟩ h2
      · simpa using hr
    simp [prop_validate, h1, hr, hc]
  · cases hc : p.schema with
    | none =>
      by_cases hv : v = .none
      · subst hv
        have hr : p.required = false := by
          by_cases hr : p.required = true
          · exact absurd ⟨hr, rfl⟩ h2
          · simpa using hr
        simp [prop_validate, h1, hr, hc]
      · simp [prop_validate, h1, h2, hc, hv]
    | some check =>
      by_cases hv : v = .none
      · subst hv
        have hr : p.required = false := by
          by_cases hr : p.required = true
          · exact absurd ⟨hr, rfl⟩ h2
          · simpa using hr
        simp [prop_validate, h1, hr, hc]
      · simp [prop_validate, h1, h2, hc, hv, h3 check hc hv]

/-- C2 witness: a value outside the configured choices fails with the
choices error on a property that also has a failing schema check (which is
therefore never consulted). -/
theorem prop_validate_check_order_witness :
    prop_validate
      ⟨"color", true, .none, some [.str "red"], some (fun _ => some "schema says no"),
        Option.none, false, .string⟩
      (.str "blue") ⟨Option.none, [], []⟩
      = .error (.validation "blue not found in choices") :=
  (prop_validate_check_order _ _ _).1 (by decide)

/-- C6: when the `before_put` hook vetoes, `put` leaves every piece of
state unchanged: the store is untouched, no store-client call (and no
`after_put`) is issued, and the instance - identifier and property values -
is returned unmodified (or a validation error propagates, also without any
write). -/
theorem before_put_veto_frame (M : ModelClass) (obj : Instance) (store : Store)
    (exclude : List String) (only : Option (List String)) (now : Rat) (new_id : String)
    (h : M.before_put obj = false) :
    (put M obj store exclude only now new_id).store = store
  ∧ (put M obj store exclude only now new_id).events = []
  ∧ ((put M obj store exclude only now new_id).res = .ok obj
      ∨ ∃ e, (put M obj store exclude only now new_id).res = .error e) := by
  unfold put
  cases validate_props M.props obj with
  | error e => exact ⟨rfl, rfl, .inr ⟨e, rfl⟩⟩
  | ok _ =>
    cases M.instance_validate obj with
    | error e => exact ⟨rfl, rfl, .inr ⟨e, rfl⟩⟩
    | ok _ => simp [h]

/-- C6 witness: a vetoing model leaves a concrete instance and store alone. -/
theorem before_put_veto_frame_witness :
    (put ⟨[plainProp "name" .string], "id", Option.none, okValidate, fun _ => false⟩
        ⟨some "d", [], [("name", .str "x")]⟩ [("d", [("name", .str "old")])]
        [] Option.none 0 "n").store = [("d", [("name", .str "old")])]
  ∧ (put ⟨[plainProp "name" .string], "id", Option.none, okValidate, fun _ => false⟩
        ⟨some "d", [], [("name", .str "x")]⟩ [("d", [("name", .str "old")])]
        [] Option.none 0 "n").events = [] :=
  ⟨(before_put_veto_frame _ _ _ _ _ _ _ rfl).1, (before_put_veto_frame _ _ _ _ _ _ _ rfl).2.1⟩

/-- C9: `get_by_id` on an identifier with no backing document returns the
absence signal `None` (no error); `update_by_dict` on a dict whose truthy
identifier has no backing document fails with `DocumentNotFound`, and with
a missing or empty identifier fails with a validation error - in both
failure cases with the store untouched and no store-client call issued. -/
theorem get_or_update_missing_doc (M : ModelClass) (values : List (String × Value))
    (parent_ids : List String) (store : Store) (exclude : List String)
    (only : Option (List String)) (without_put : Bool) (now : Rat) (new_id : String)
    (s : String) :
    (dget store s = Option.none → get_by_id M s parent_ids store = Option.none)
  ∧ (dget values M.dict_id_key = some (.str s) → s ≠ "" → dget store s = Option.none →
      update_by_dict M values parent_ids store exclude only without_put now new_id
        = ⟨.error .document_not_found, store, []⟩)
  ∧ ((dget values M.dict_id_key = Option.none ∨ dget values M.dict_id_key = some (.str "")) →
      update_by_dict M values parent_ids store exclude only without_put now new_id
        = ⟨.error (.validation (M.dict_id_key ++ " not found")), store, []⟩) := by
  refine ⟨fun h => ?_, fun hid hs hmiss => ?_, fun hid => ?_⟩
  · simp [get_by_id, h]
  · simp [update_by_dict, hid, truthyOptV, truthyV, hs, get_by_id, hmiss]
  · rcases hid with hid | hid <;> simp [update_by_dict, hid, truthyOptV, truthyV]

/-- C9 witness: concrete missing-document lookups and updates. -/
theorem get_or_update_missing_doc_witness :
    get_by_id OneM "ghost" [] [] = Option.none
  ∧ update_by_dict OneM [("id", .str "ghost"), ("name", .str "x")] [] [] []
      Option.none false 0 "n" = ⟨.error .document_not_found, [], []⟩
  ∧ update_by_dict OneM [("name", .str "x")] [] [] [] Option.none false 0 "n"
      = ⟨.error (.validation "id not found"), [], []⟩ :=
  ⟨(get_or_update_missing_doc OneM [] [] [] [] Option.none false 0 "n" "ghost").1 rfl,
   (get_or_update_missing_doc OneM [("id", .str "ghost"), ("name", .str "x")] [] [] []
      Option.none false 0 "n" "ghost").2.1 (by decide) (by decide) rfl,
   (get_or_update_missing_doc OneM [("name", .str "x")] [] [] []
      Option.none false 0 "n" "x").2.2 (.inl (by decide))⟩

/-- Helper: `put` never consults the class's identifier pattern. -/
theorem put_ignores_id_pattern (props : List PropSpec) (k : String)
    (pat1 pat2 : Option (String → Bool)) (iv : Instance → Except Err Unit)
    (bp : Instance → Bool) (obj : Instance) (store : Store) (exclude : List String)
    (only : Option (List String)) (now : Rat) (new_id : String) :
    put ⟨props, k, pat1, iv, bp⟩ obj store exclude only now new_id
      = put ⟨props, k, pat2, iv, bp⟩ obj store exclude only now new_id := rfl

/-- C10: `create_by_dict` with a truthy string identifier that the
configured identifier pattern rejects raises a validation error before
populating any property or touching the store; with a missing or empty
identifier the pattern check is skipped entirely - the outcome does not
depend on the configured pattern at all. -/
theorem create_by_dict_id_validation (M : ModelClass) (values : List (String × Value))
    (parent_ids : List String) (store : Store) (exclude : List String)
    (only : Option (List String)) (without_put : Bool) (now : Rat) (new_id : String)
    (s : String) :
    (dget values M.dict_id_key = some (.str s) → s ≠ "" →
      ∀ pat, M.id_pattern = some pat → pat s = false →
      create_by_dict M values parent_ids store exclude only without_put now new_id
        = ⟨.error (.validation ("invalid id: " ++ s)), store, []⟩)
  ∧ ((dget values M.dict_id_key = Option.none ∨ dget values M.dict_id_key = some (.str "")) →
      ∀ pat1 pat2,
        create_by_dict ⟨M.props, M.dict_id_key, pat1, M.instance_validate, M.before_put⟩
            values parent_ids store exclude only without_put now new_id
          = create_by_dict ⟨M.props, M.dict_id_key, pat2, M.instance_validate, M.before_put⟩
            values parent_ids store exclude only without_put now new_id) := by
  refine ⟨fun hid hs pat hpat hrej => ?_, fun hid pat1 pat2 => ?_⟩
  · simp [create_by_dict, hid, truthyOptV, truthyV, hs, validate_doc_id, hpat, hrej]
  · have key : ∀ (props : List PropSpec) (k : String) (iv : Instance → Except Err Unit)
        (bp : Instance → Bool) (q1 q2 : Option (String → Bool)),
        truthyOptV (dget values k) = false →
        create_by_dict ⟨props, k, q1, iv, bp⟩ values parent_ids store exclude only
            without_put now new_id
          = create_by_dict ⟨props, k, q2, iv, bp⟩ values parent_ids store exclude only
            without_put now new_id := by
      intro props k iv bp q1 q2 hf
      unfold create_by_dict
      simp only [hf, Bool.false_eq_true, if_false]
      rfl
    rcases hid with hid | hid
    · exact key M.props M.dict_id_key M.instance_validate M.before_put pat1 pat2
        (by rw [hid]; rfl)
    · exact key M.props M.dict_id_key M.instance_validate M.before_put pat1 pat2
        (by rw [hid]; rfl)

/-- C10 witness: the invalid identifier `bad-id` (hyphen outside the default
pattern) is rejected; with no identifier the pattern is irrelevant. -/
theorem create_by_dict_id_validation_witness :
    create_by_dict OneM [("id", .str "bad-id"), ("name", .str "x")] [] [] []
        Option.none false 0 "n"
      = ⟨.error (.validation "invalid id: bad-id"), [], []⟩
  ∧ create_by_dict ⟨OneM.props, OneM.dict_id_key, some (fun _ => false),
        OneM.instance_validate, OneM.before_put⟩
        [("name", .str "x")] [] [] [] Option.none false 0 "n"
      = create_by_dict ⟨OneM.props, OneM.dict_id_key, Option.none,
        OneM.instance_validate, OneM.before_put⟩
        [("name", .str "x")] [] [] [] Option.none false 0 "n" :=
  ⟨(create_by_dict_id_validation OneM [("id", .str "bad-id"), ("name", .str "x")] [] [] []
      Option.none false 0 "n" "bad-id").1 (by decide) (by decide)
      default_id_pattern rfl (by decide),
   (create_by_dict_id_validation OneM [("name", .str "x")] [] [] []
      Option.none false 0 "n" "x").2 (.inl (by decide)) (some (fun _ => false)) Option.none⟩



/-- Every failure of `BaseProperty._validate` is a validation error: the
choices, required and schema checks raise `FsglueValidationError`, and the
custom validator signals invalidity with a validation error per the error
taxonomy (spec section 7). -/
theorem prop_validate_ok_or_validation (p : PropSpec) (v : Value) (obj : Instance) :
    prop_validate p v obj = .ok () ∨ ∃ m, prop_validate p v obj = .error (.validation m) := by
  have hrv : runValidator p v obj = .ok ()
      ∨ ∃ m, runValidator p v obj = .error (.validation m) := by
    unfold runValidator
    rcases hval : p.validator with _ | f
    · simp
    · rcases hf : f v obj with _ | msg <;> simp [hf]
  unfold prop_validate
  by_cases h1 : choicesFail p v = true
  · simp [h1]
  · by_cases h2 : p.required = true ∧ v = .none
    · obtain ⟨hr, hv⟩ := h2
      subst hv
      simp [h1, hr]
    · rcases hs : p.schema with _ | check
      · by_cases hv : v = .none
        · subst hv
          have hr : p.required = false := by
            by_cases hr : p.required = true
            · exact absurd ⟨hr, rfl⟩ h2
            · simpa using hr
          simpa [h1, hr, hs] using hrv
        · simpa [h1, h2, hs, hv] using hrv
      · by_cases hv : v = .none
        · subst hv
          have hr : p.required = false := by
            by_cases hr : p.required = true
            · exact absurd ⟨hr, rfl⟩ h2
            · simpa using hr
          simpa [h1, hr, hs] using hrv
        · rcases hc : check v with _ | msg
          · simpa [h1, h2, hs, hv, hc] using hrv
          · simp [h1, h2, hs, hv, hc]

/-- A required property whose (defaulted) application value is null never
passes `_validate`: either the choices check or the required check raises a
validation error. -/
theorem prop_validate_required_none_fails (p : PropSpec) (obj : Instance)
    (hreq : p.required = true) : ∃ m, prop_validate p .none obj = .error (.validation m) := by
  by_cases hc : choicesFail p .none = true
  · exact ⟨pyStrOf .none ++ " not found in choices", by simp [prop_validate, hc]⟩
  · exact ⟨p.name ++ " is required", by simp [prop_validate, hc, hreq]⟩

/-- `BaseModel._validate` fails with a validation error whenever some
declared property is required but its application value is null. -/
theorem validate_props_required_none (props : List PropSpec) (obj : Instance)
    (p : PropSpec) (hp : p ∈ props) (hreq : p.required = true)
    (hnull : get_app_value p obj false = .none) :
    ∃ m, validate_props props obj = .error (.validation m) := by
  induction props with
  | nil => simp at hp
  | cons q rest ih =>
    rcases List.mem_cons.mp hp with heq | hmem
    · subst heq
      obtain ⟨m, hm⟩ := prop_validate_required_none_fails p obj hreq
      exact ⟨m, by rw [validate_props, hnull, hm]⟩
    · rcases hq : prop_validate q (get_app_value q obj false) obj with e | u
      · rcases prop_validate_ok_or_validation q (get_app_value q obj false) obj with hok | ⟨m, hm⟩
        · rw [hok] at hq; cases hq
        · rw [hm] at hq
          cases hq
          exact ⟨m, by rw [validate_props, hm]⟩
      · obtain ⟨m, hm⟩ := ih hmem
        exact ⟨m, by rw [validate_props, hq, hm]⟩

/-- C3: calling `put` on an instance having a required property whose
application-facing value (after default substitution) is null raises a
validation error and performs no store write: no add, set or update call is
issued and the store is unchanged. -/
theorem put_required_none_no_write (M : ModelClass) (obj : Instance) (store : Store)
    (exclude : List String) (only : Option (List String)) (now : Rat) (new_id : String)
    (p : PropSpec) (hp : p ∈ M.props) (hreq : p.required = true)
    (hnull : get_app_value p obj false = .none) :
    ∃ m, put M obj store exclude only now new_id
      = ⟨.error (.validation m), store, []⟩ := by
  obtain ⟨m, hm⟩ := validate_props_required_none M.props obj p hp hreq hnull
  exact ⟨m, by rw [put, hm]⟩

/-- C3 witness: persisting a `Fruit` with `name` left null is rejected
without touching a store that already holds another document. -/
theorem put_required_none_no_write_witness :
    ∃ m, put FruitM ⟨Option.none, [], [("price", .int 3)]⟩ [("d", [("name", .str "kept")])]
        [] Option.none 0 "n"
      = ⟨.error (.validation m), [("d", [("name", .str "kept")])], []⟩ :=
  put_required_none_no_write FruitM ⟨Option.none, [], [("price", .int 3)]⟩
    [("d", [("name", .str "kept")])] [] Option.none 0 "n" nameProp
    (List.Mem.head _) rfl (by decide)

/-- C7: for every property kind that does not override
`to_db_search_value` (String, Integer, Float, Boolean, Json), the search
conversion equals `to_db_value` composed with `from_app_value` (with the
`None` receiver of the base-class default, independent of the clock); and
each `where`/`stream` predicate whose field names a declared property hands
that property's `to_db_search_value` of the given value to the store's
filter mechanism, while a predicate on an undeclared field passes its value
through unchanged. -/
theorem search_value_composition_and_conds (M : ModelClass)
    (conds : List (String × String × Value)) (v : Value) (now : Rat) (sas : Bool) :
    (Kind.to_db_search_value .string v
        = Kind.to_db_value .string (Kind.from_app_value .string v) Option.none now)
  ∧ (Kind.to_db_search_value .integer v
        = Kind.to_db_value .integer (Kind.from_app_value .integer v) Option.none now)
  ∧ (Kind.to_db_search_value .float v
        = Kind.to_db_value .float (Kind.from_app_value .float v) Option.none now)
  ∧ (Kind.to_db_search_value .boolean v
        = Kind.to_db_value .boolean (Kind.from_app_value .boolean v) Option.none now)
  ∧ (Kind.to_db_search_value (.json sas) v
        = Kind.to_db_value (.json sas) (Kind.from_app_value (.json sas) v) Option.none now)
  ∧ (∀ f op w p, M.propGet f = some p → (f, op, w) ∈ conds →
      (f, op, p.kind.to_db_search_value w) ∈ to_search_conds M conds)
  ∧ (∀ f op w, M.propGet f = Option.none → (f, op, w) ∈ conds →
      (f, op, w) ∈ to_search_conds M conds) := by
  refine ⟨rfl, rfl, rfl, rfl, by cases sas <;> rfl, fun f op w p hf hm => ?_, fun f op w hf hm => ?_⟩
  · exact List.mem_map.mpr ⟨(f, op, w), hm, by simp [hf]⟩
  · exact List.mem_map.mpr ⟨(f, op, w), hm, by simp [hf]⟩

/-- C7 witness: on the `Fruit` model, a `where` predicate on the declared
integer `price` converts the queried string through the store
representation, while a predicate on the undeclared `foo` is untouched. -/
theorem search_value_composition_and_conds_witness :
    Kind.to_db_search_value .integer (.str "5")
        = Kind.to_db_value .integer (Kind.from_app_value .integer (.str "5")) Option.none 9
  ∧ ("price", "==", Kind.to_db_search_value priceProp.kind (.str "5"))
      ∈ to_search_conds FruitM [("price", "==", .str "5"), ("foo", "<", .int 7)]
  ∧ ("foo", "<", .int 7)
      ∈ to_search_conds FruitM [("price", "==", .str "5"), ("foo", "<", .int 7)] :=
  ⟨(search_value_composition_and_conds FruitM [] (.str "5") 9 false).2.1,
   (search_value_composition_and_conds FruitM [("price", "==", .str "5"), ("foo", "<", .int 7)]
      .none 9 false).2.2.2.2.2.1 "price" "==" (.str "5") priceProp rfl (by decide),
   (search_value_composition_and_conds FruitM [("price", "==", .str "5"), ("foo", "<", .int 7)]
      .none 9 false).2.2.2.2.2.2 "foo" "<" (.int 7) rfl (by decide)⟩



/-- C1 counterexample: on an instance with a persisted identifier,
`put(only=[])` - an `only` list was given, though empty - issues a full
replace (`set`), not a partial field update: the stored field `extra`,
which per the claim should be untouched, is deleted from the document. -/
theorem put_only_empty_list_counterexample :
    (put OneM ⟨some "d", [], [("name", .str "new")]⟩
        [("d", [("name", .str "old"), ("extra", .int 1)])] [] (some []) 0 "n").events
      = [.set "d" [("name", .str "new")], .after_put false]
  ∧ (put OneM ⟨some "d", [], [("name", .str "new")]⟩
        [("d", [("name", .str "old"), ("extra", .int 1)])] [] (some []) 0 "n").store
      = [("d", [("name", .str "new")])] := by decide

/-- C1 amended: when `put` proceeds past its hooks: with no identifier it
adds a new document and stores the store-assigned identifier on the
instance; with an identifier and a non-empty `exclude` or a *non-empty*
`only` list it issues a single partial `update` whose merge touches only
the written fields (all inside `only` when truthy and never in `exclude`);
with an identifier and no non-empty field restriction (in particular with
`only=[]`) it issues a full-replace `set`, after which any stored field
absent from the written dict is gone from the document. -/
theorem put_write_modes (M : ModelClass) (obj : Instance) (store : Store)
    (exclude : List String) (only : Option (List String)) (now : Rat) (new_id : String)
    (hval : validate_props M.props obj = .ok ())
    (hival : M.instance_validate obj = .ok ())
    (hhook : M.before_put obj = true) :
    (obj.doc_id = Option.none →
      (put M obj store exclude only now new_id).res
          = .ok { obj with doc_id := some new_id }
      ∧ (put M obj store exclude only now new_id).events
          = [.add new_id (to_db_dict M obj exclude only now), .after_put true]
      ∧ (put M obj store exclude only now new_id).store
          = store ++ [(new_id, to_db_dict M obj exclude only now)])
  ∧ (∀ id old, obj.doc_id = some id → id ≠ "" → dget store id = some old →
      (exclude ≠ [] ∨ truthyOnly only = true) →
      (put M obj store exclude only now new_id).events
          = [.update id (to_db_dict M obj exclude only now), .after_put false]
      ∧ dget (put M obj store exclude only now new_id).store id
          = some (doc_merge old (to_db_dict M obj exclude only now))
      ∧ (∀ k, dmem (to_db_dict M obj exclude only now) k = false →
          dget (doc_merge old (to_db_dict M obj exclude only now)) k = dget old k)
      ∧ (∀ k v, (k, v) ∈ to_db_dict M obj exclude only now →
          (truthyOnly only = true → k ∈ only.getD []) ∧ k ∉ exclude))
  ∧ (∀ id, obj.doc_id = some id → id ≠ "" → exclude = [] → truthyOnly only = false →
      (put M obj store exclude only now new_id).events
          = [.set id (to_db_dict M obj exclude only now), .after_put false]
      ∧ dget (put M obj store exclude only now new_id).store id
          = some (to_db_dict M obj exclude only now)
      ∧ (∀ k, dmem (to_db_dict M obj exclude only now) k = false →
          ∀ dd, dget (put M obj store exclude only now new_id).store id = some dd →
            dget dd k = Option.none)) := by
  refine ⟨fun hid => ?_, fun id old hid hne hold hrestrict => ?_,
    fun id hid hne hex honly => ?_⟩
  · have hfalse : truthyId obj.doc_id = false := by rw [hid]; rfl
    simp [put, hval, hival, hhook, hfalse]
  · have ht : truthyId obj.doc_id = true := by rw [hid]; simp [truthyId, hne]
    have hcond : 0 < exclude.length ∨ truthyOnly only = true := by
      rcases hrestrict with h | h
      · exact .inl (List.length_pos.mpr h)
      · exact .inr h
    have hgetd : obj.doc_id.getD "" = id := by rw [hid]; rfl
    refine ⟨?_, ?_, fun k hk => doc_merge_untouched old _ k hk,
      fun k v hkv => to_db_fields_key_mem M.props obj exclude only now k v hkv⟩
    · simp [put, hval, hival, hhook, ht, hgetd, hcond, hold]
    · simp [put, hval, hival, hhook, ht, hgetd, hcond, hold, dget_dset_self]
  · have ht : truthyId obj.doc_id = true := by rw [hid]; simp [truthyId, hne]
    have hcond : ¬(0 < exclude.length ∨ truthyOnly only = true) := by
      subst hex
      simp [honly]
    have hgetd : obj.doc_id.getD "" = id := by rw [hid]; rfl
    refine ⟨?_, ?_, fun k hk dd hdd => ?_⟩
    · simp [put, hval, hival, hhook, ht, hgetd, hcond]
    · simp [put, hval, hival, hhook, ht, hgetd, hcond, dget_dset_self]
    · have hdget : dget (put M obj store exclude only now new_id).store id
          = some (to_db_dict M obj exclude only now) := by
        simp [put, hval, hival, hhook, ht, hgetd, hcond, dget_dset_self]
      rw [hdget] at hdd
      cases hdd
      rcases hd : dget (to_db_dict M obj exclude only now) k with _ | w
      · rfl
      · rw [dmem, hd] at hk
        simp at hk

/-- C1 witness: on the one-property model, a fresh instance is added under
the minted identifier; with `exclude=["name"]` an update is issued; with no
restriction a set is issued. -/
theorem put_write_modes_witness :
    ((put OneM ⟨Option.none, [], [("name", .str "x")]⟩ [] [] Option.none 0 "fresh").res
        = .ok ⟨some "fresh", [], [("name", .str "x")]⟩
      ∧ (put OneM ⟨Option.none, [], [("name", .str "x")]⟩ [] [] Option.none 0 "fresh").events
        = [.add "fresh" (to_db_dict OneM ⟨Option.none, [], [("name", .str "x")]⟩ [] Option.none 0),
           .after_put true]
      ∧ (put OneM ⟨Option.none, [], [("name", .str "x")]⟩ [] [] Option.none 0 "fresh").store
        = [] ++ [("fresh", to_db_dict OneM ⟨Option.none, [], [("name", .str "x")]⟩ [] Option.none 0)])
  ∧ (put OneM ⟨some "d", [], [("name", .str "x")]⟩ [("d", [("extra", .int 1)])]
        ["name"] Option.none 0 "n").events
      = [.update "d" (to_db_dict OneM ⟨some "d", [], [("name", .str "x")]⟩ ["name"] Option.none 0),
         .after_put false] :=
  ⟨(put_write_modes OneM ⟨Option.none, [], [("name", .str "x")]⟩ [] [] Option.none 0 "fresh"
      rfl rfl rfl).1 rfl,
   ((put_write_modes OneM ⟨some "d", [], [("name", .str "x")]⟩ [("d", [("extra", .int 1)])]
      ["name"] Option.none 0 "n" rfl rfl rfl).2.1 "d" [("extra", .int 1)] rfl
      (by decide) rfl (.inl (by decide))).1⟩

/-- Outcome of the first persist of an empty two-timestamp instance at
clock `now0` (the store-assigned identifier is `d`). -/
def ts_put1 (now0 : Rat) : Outcome :=
  put TsM ⟨Option.none, [], []⟩ [] [] Option.none now0 "d"

/-- The instance as `put` returned it - no rehydration happened, so the
timestamp properties still have no internal value. -/
def ts_obj1 (now0 : Rat) : Instance :=
  ((ts_put1 now0).res).toOption.getD ⟨Option.none, [], []⟩

/-- Second persist at clock `now1` without rehydration in between. -/
def ts_put2 (now0 now1 : Rat) : Outcome :=
  put TsM (ts_obj1 now0) (ts_put1 now0).store [] Option.none now1 "x"

/-- The instance rehydrated from the store between the persists. -/
def ts_obj2 (now0 : Rat) : Instance :=
  (get_by_id TsM "d" [] (ts_put1 now0).store).getD ⟨Option.none, [], []⟩

/-- Second persist at clock `now1` after rehydration. -/
def ts_put3 (now0 now1 : Rat) : Outcome :=
  put TsM (ts_obj2 now0) (ts_put1 now0).store [] Option.none now1 "x"

/-- C4 counterexample: persisting the same instance twice via `put`
*without rehydration in between* (clock 0, then clock 1) re-stamps the
`auto_now_add` field: the stored value changes from `dt 0` to `dt 1`,
because `put` never writes the stamped value back into the instance, so
the internal value is still absent at the second persist. -/
theorem auto_now_add_restamped_counterexample :
    pyGet ((dget (ts_put1 0).store "d").getD []) "created_at" = .dt 0
  ∧ pyGet ((dget (ts_put2 0 1).store "d").getD []) "created_at" = .dt 1
  ∧ pyGet ((dget (ts_put1 0).store "d").getD []) "created_at"
      ≠ pyGet ((dget (ts_put2 0 1).store "d").getD []) "created_at" := by decide

/-- C4 amended: `auto_now_add` stamps the current UTC time exactly when no
internal value exists (otherwise it converts the existing epoch); since
`put` does not write the stamp back, a second persist *without rehydration*
re-stamps the field, while after rehydration the second persist leaves the
stored `auto_now_add` value unchanged and still changes the `auto_now`
field (the clocks of the two persists differing). -/
theorem timestamp_auto_now_add_amended (now0 now1 : Rat) (h : now0 ≠ now1) :
    (∀ (obj : Option Instance),
      Kind.to_db_value (.timestamp false true) .none obj now1 = .dt now1)
  ∧ (∀ (v : Value) (obj : Option Instance), v ≠ .none →
      Kind.to_db_value (.timestamp false true) v obj now1 = utcfromtimestamp v)
  ∧ pyGet ((dget (ts_put2 now0 now1).store "d").getD []) "created_at" = .dt now1
  ∧ pyGet ((dget (ts_put3 now0 now1).store "d").getD []) "created_at" = .dt now0
  ∧ pyGet ((dget (ts_put3 now0 now1).store "d").getD []) "updated_at" = .dt now1
  ∧ pyGet ((dget (ts_put3 now0 now1).store "d").getD []) "updated_at"
      ≠ pyGet ((dget (ts_put1 now0).store "d").getD []) "updated_at" := by
  refine ⟨fun obj => rfl, fun v obj hv => ?_, rfl, rfl, rfl, ?_⟩
  · cases v <;> first | exact absurd rfl hv | rfl
  · show (Value.dt now1) ≠ Value.dt now0
    intro heq
    exact h (Value.dt.inj heq).symm

/-- C4 witness: the amended behavior at clocks 0 and 1. -/
theorem timestamp_auto_now_add_amended_witness :
    Kind.to_db_value (.timestamp false true) .none Option.none 1 = .dt 1
  ∧ pyGet ((dget (ts_put3 0 1).store "d").getD []) "created_at" = .dt 0
  ∧ pyGet ((dget (ts_put3 0 1).store "d").getD []) "updated_at" = .dt 1 :=
  ⟨(timestamp_auto_now_add_amended 0 1 (by norm_num)).1 Option.none,
   (timestamp_auto_now_add_amended 0 1 (by norm_num)).2.2.2.1,
   (timestamp_auto_now_add_amended 0 1 (by norm_num)).2.2.2.2.1⟩

/-- The instance hydrated with the composite `{"a": 1}` for `j`. -/
def c5_obj1 : Instance := set_db_value jProp ⟨some "d", [], []⟩ (.dict [("a", .int 1)])

/-- The same instance after the application assigned `{"a": 2}` to `j`. -/
def c5_obj2 : Instance :=
  (set_app_value jProp c5_obj1 (.dict [("a", .int 2)])).toOption.getD c5_obj1

/-- The persist of the modified instance over the original document. -/
def c5_put : Outcome :=
  put JsonM c5_obj2 [("d", [("j", .dict [("a", .int 1)])])] [] Option.none 0 "n"

/-- C5 counterexample: after hydrating `j` as the dict `a=1`, assigning
the dict `a=2` and persisting, the last value written to the store for `j`
is the dict `a=2`, while the intact shadow - untouched by `put` - still
holds the dict `a=1`: the shadow does not equal the last value written to
the store. -/
theorem intact_shadow_not_last_written :
    c5_put.events = [.set "d" [("j", .dict [("a", .int 2)])], .after_put false]
  ∧ c5_put.res = .ok c5_obj2
  ∧ pyGet c5_obj2.doc_values (intactKey "j") = .dict [("a", .int 1)]
  ∧ pyGet c5_obj2.doc_values (intactKey "j") ≠ .dict [("a", .int 2)] := by decide

/-- C5 amended: the intact shadow equals the last value read *from* the
store (persisting does not update it - see the counterexample), and it
never aliases a mutable composite reachable by the application: hydration
deep-copies a dict or list value into a fresh cell, distinct from the one
the property exposes, so mutating the exposed value never changes the
shadow. -/
theorem intact_shadow_amended (obj : HeapInstance) (name : String) (v : Value)
    (from_db : Value → Value) (hs : from_db v ≠ .sentinel) :
    (hderef (hset_db_value obj name v from_db)
        ((dget (hset_db_value obj name v from_db).vals (intactKey name)).getD (.prim .none))
      = some (from_db v))
  ∧ (isComposite (from_db v) = true →
      ∃ a b, dget (hset_db_value obj name v from_db).vals name = some (.ref a)
        ∧ dget (hset_db_value obj name v from_db).vals (intactKey name) = some (.ref b)
        ∧ a ≠ b
        ∧ heapGet (hset_db_value obj name v from_db).heap a = some (from_db v)
        ∧ ∀ w, hderef (hmutate (hset_db_value obj name v from_db) a w) (.ref b)
            = some (from_db v)) := by
  have hne : obj.next_ref ≠ obj.next_ref + 1 := by omega
  constructor
  · by_cases hcomp : isComposite (from_db v) = true
    · simp [hset_db_value, hs, hcomp, dget_dset_self, hderef, heapGet, hne]
    · simp [hset_db_value, hs, hcomp, dget_dset_self, hderef]
  · intro hcomp
    refine ⟨obj.next_ref, obj.next_ref + 1, ?_, ?_, hne, ?_, fun w => ?_⟩
    · simp [hset_db_value, hs, hcomp]
      rw [dget_dset_ne _ _ _ _ (intactKey_ne name), dget_dset_self]
    · simp [hset_db_value, hs, hcomp, dget_dset_self]
    · simp [hset_db_value, hs, hcomp, heapGet]
    · simp [hset_db_value, hs, hcomp, hmutate, hderef, heapSet, heapGet, hne]

/-- C5 amended witness: hydrating `j` with the dict `a=1` through the
identity conversion and then mutating the exposed cell. -/
theorem intact_shadow_amended_witness :
    (hderef (hset_db_value ⟨[], [], 0⟩ "j" (.dict [("a", .int 1)]) (fun x => x))
        ((dget (hset_db_value ⟨[], [], 0⟩ "j" (.dict [("a", .int 1)]) (fun x => x)).vals
          (intactKey "j")).getD (.prim .none))
      = some (.dict [("a", .int 1)]))
  ∧ (isComposite (.dict [("a", .int 1)]) = true →
      ∃ a b, dget (hset_db_value ⟨[], [], 0⟩ "j" (.dict [("a", .int 1)]) (fun x => x)).vals "j"
          = some (.ref a)
        ∧ dget (hset_db_value ⟨[], [], 0⟩ "j" (.dict [("a", .int 1)]) (fun x => x)).vals
            (intactKey "j") = some (.ref b)
        ∧ a ≠ b
        ∧ heapGet (hset_db_value ⟨[], [], 0⟩ "j" (.dict [("a", .int 1)]) (fun x => x)).heap a
            = some (.dict [("a", .int 1)])
        ∧ ∀ w, hderef (hmutate (hset_db_value ⟨[], [], 0⟩ "j" (.dict [("a", .int 1)]) (fun x => x)) a w)
            (.ref b) = some (.dict [("a", .int 1)])) :=
  intact_shadow_amended ⟨[], [], 0⟩ "j" (.dict [("a", .int 1)]) (fun x => x) (by decide)



/-- Induction principle for the nested inductive `FsTree`. -/
theorem FsTree.memInd (P : FsTree → Prop)
    (h : ∀ i cs, (∀ c ∈ cs, P c) → P (.node i cs)) : ∀ t, P t := fun t =>
  match t with
  | .node i cs => h i cs (fun c hc =>
      have : sizeOf c < 1 + sizeOf i + sizeOf cs := by
        have := List.sizeOf_lt_of_mem hc
        omega
      FsTree.memInd P h c)
termination_by t => sizeOf t

/-- Pointwise permutation lifts to the list-level deletion trace. -/
theorem deleteEventsList_perm_of (cs : List FsTree)
    (h : ∀ c ∈ cs, List.Perm (deleteEvents c) (allIds c)) :
    List.Perm (deleteEventsList cs) (allIdsList cs) := by
  induction cs with
  | nil => simp [deleteEventsList, allIdsList]
  | cons t ts ih =>
    simp only [deleteEventsList, allIdsList]
    exact (h t (by simp)).append (ih (fun c hc => h c (by simp [hc])))

/-- The deletion trace of a document tree is a permutation of its document
identifiers: every document, and nothing else, is deleted. -/
theorem deleteEvents_perm : ∀ t, List.Perm (deleteEvents t) (allIds t) := by
  intro t
  induction t using FsTree.memInd with
  | h i cs ih =>
    simp only [deleteEvents, allIds]
    exact ((deleteEventsList_perm_of cs ih).append_right [i]).trans
      (List.perm_append_singleton i (allIdsList cs))

/-- The deletion trace of a member tree is contiguous inside the
list-level trace. -/
theorem mem_infix_deleteEventsList {u : FsTree} {cs : List FsTree} (h : u ∈ cs) :
    deleteEvents u <:+: deleteEventsList cs := by
  induction cs with
  | nil => simp at h
  | cons t ts ih =>
    rcases List.mem_cons.mp h with heq | hmem
    · subst heq
      exact ⟨[], deleteEventsList ts, by simp [deleteEventsList]⟩
    · exact (ih hmem).trans ⟨deleteEvents t, [], by simp [deleteEventsList]⟩

/-- The deletion trace of a subdocument is contiguous inside the deletion
trace of the whole tree. -/
theorem subtree_infix {u t : FsTree} (h : Subtree u t) :
    deleteEvents u <:+: deleteEvents t := by
  induction h with
  | refl => exact List.infix_rfl
  | @step v i cs hmem hsub ih =>
    refine ih.trans ((mem_infix_deleteEventsList hmem).trans ?_)
    exact ⟨[], [i], by simp [deleteEvents]⟩

/-- The root document is deleted last. -/
theorem deleteEvents_getLast (t : FsTree) :
    (deleteEvents t).getLast? = some t.root_id := by
  cases t with
  | node i cs => simp [deleteEvents, FsTree.root_id]

/-- C8: when its deletability checks pass, `delete_all` deletes the
descendants recursively in post-order: every strict descendant of every
subdocument `u` is deleted strictly before `u` itself (the trace splits as
`l1 ++ u :: l2` with the descendant in `l1` and `u` occurring nowhere
else), the target document is deleted last, and every descendant document
is deleted - no orphans remain. -/
theorem delete_all_postorder (is_del bef : Bool) (t : FsTree)
    (hdel : is_del = true) (hbef : bef = true)
    (hnodup : (allIds t).Nodup) (u : FsTree) (hu : Subtree u t) :
    (∀ d ∈ descendantIds u, ∃ l1 l2,
        delete_all is_del bef t = l1 ++ u.root_id :: l2
        ∧ d ∈ l1 ∧ u.root_id ∉ l1 ∧ u.root_id ∉ l2)
  ∧ (delete_all is_del bef t).getLast? = some t.root_id
  ∧ (∀ d ∈ allIds t, d ∈ delete_all is_del bef t) := by
  subst hdel hbef
  have hda : delete_all true true t = deleteEvents t := by simp [delete_all]
  rw [hda]
  have hperm := deleteEvents_perm t
  have hnd : (deleteEvents t).Nodup := (hperm.nodup_iff).mpr hnodup
  refine ⟨fun d hd => ?_, deleteEvents_getLast t, fun d hd => hperm.mem_iff.mpr hd⟩
  obtain ⟨uid, ucs⟩ := u
  obtain ⟨pre, post, hsplit⟩ := subtree_infix hu
  have hsplit' : deleteEvents t = (pre ++ deleteEventsList ucs) ++ uid :: post := by
    rw [← hsplit]
    simp [deleteEvents]
  have hdmem : d ∈ deleteEventsList ucs := by
    have hp := deleteEventsList_perm_of ucs (fun c _ => deleteEvents_perm c)
    exact hp.mem_iff.mpr (by simpa [descendantIds, FsTree.child_docs] using hd)
  have hnd' : ((pre ++ deleteEventsList ucs) ++ uid :: post).Nodup := hsplit' ▸ hnd
  rw [List.nodup_append] at hnd'
  obtain ⟨hnd1, hnd2, hdisj⟩ := hnd'
  refine ⟨pre ++ deleteEventsList ucs, post, by simpa [FsTree.root_id] using hsplit',
    List.mem_append_right pre hdmem, ?_, ?_⟩
  · intro hmem
    exact (hdisj hmem) (List.mem_cons_self uid post)
  · exact (List.nodup_cons.mp hnd2).1

/-- C8 witness: on the tree `r[a[b], c]`, the descendant `b` of the
subdocument `a` is deleted before `a`, the target `r` is deleted last, and
every document is deleted. -/
theorem delete_all_postorder_witness :
    (∀ d ∈ descendantIds (.node "a" [.node "b" []]), ∃ l1 l2,
        delete_all true true (.node "r" [.node "a" [.node "b" []], .node "c" []])
          = l1 ++ (FsTree.node "a" [.node "b" []]).root_id :: l2
        ∧ d ∈ l1 ∧ (FsTree.node "a" [.node "b" []]).root_id ∉ l1
        ∧ (FsTree.node "a" [.node "b" []]).root_id ∉ l2)
  ∧ (delete_all true true (.node "r" [.node "a" [.node "b" []], .node "c" []])).getLast?
      = some (FsTree.node "r" [.node "a" [.node "b" []], .node "c" []]).root_id
  ∧ (∀ d ∈ allIds (.node "r" [.node "a" [.node "b" []], .node "c" []]),
      d ∈ delete_all true true (.node "r" [.node "a" [.node "b" []], .node "c" []])) :=
  delete_all_postorder true true (.node "r" [.node "a" [.node "b" []], .node "c" []])
    rfl rfl (by decide) (.node "a" [.node "b" []])
    (Subtree.step (List.Mem.head _) (Subtree.refl _))


end Fsglue
